import Mathlib

/-
Verification of the loup data-shipping daemon.

The development shallowly embeds the queue-based rotating aggregator
(package file, the variant the specification designates as authoritative),
the command producer lifecycle and the retrying S3 sink (package awsS3,
the variant with fatal-error classification).  Byte sequences are lists of
naturals, channels are explicit bounded queues, and the remote put-object
call is an oracle assigning to each attempt index its outcome.
-/

namespace Loup

/-- A byte of data, modelled as a natural number. -/
abbrev Byte := Nat

/-- A block of raw bytes handed from a producer to an aggregator; one call
of Write receives one block. -/
abbrev Block := List Byte

/-- The newline byte 0x0A, the package-level newLine variable. -/
def newLineByte : Byte := 10

/-- Embeds bytes.Count(b, newLine): how many newline bytes a block holds. -/
def countNewlines (b : Block) : Nat :=
  (b.filter (fun x => x == newLineByte)).length

/-- defaultLimitLines of the queue-based aggregator. -/
def defaultLimitLines : Nat := 99999

/-- defaultBufSize, the capacity of the aggregator inbound channel bufCh. -/
def defaultBufSize : Nat := 4096

/-- A Go channel viewed only through its open or closed state; closing an
already closed channel is a runtime panic. -/
structure GoChan where
  closed : Bool
deriving DecidableEq, Repr

/-- Embeds close(ch): marks the channel closed, or panics when it already
is closed.  The panic is modelled as the error branch. -/
def goClose (c : GoChan) : Except String GoChan :=
  if c.closed then Except.error "close of closed channel"
  else Except.ok { closed := true }

namespace file

/-- State of the queue-based rotating aggregator, as mutated by the single
reader goroutine.  tmp is the content of the active temp file, none when
no temp file is open (fresh File value before reset has run); lines and
size are the counters; handoffs lists, in order, the contents of the files
passed to output.SendFile.  Compression is treated as the identity on
content, matching the modulo-compression reading of the claims. -/
structure State where
  tmp : Option (List Byte)
  lines : Nat
  size : Nat
  linesLimit : Nat
  handoffs : List (List Byte)
deriving DecidableEq, Repr

/-- Embeds File.reset: open a fresh temp file (and fresh gz writer) and
set both counters to zero.  Temp file creation is assumed to succeed. -/
def reset (s : State) : State :=
  { s with tmp := some [], size := 0, lines := 0 }

/-- Embeds File.flush: close the gz stream (a content no-op here) and, when
a temp file is open, hand it to the bound sink via output.SendFile.  The
nil check on tmp is the only guard; the byte count is not consulted. -/
def flush (s : State) : State :=
  match s.tmp with
  | some c => { s with handoffs := s.handoffs ++ [c] }
  | none => s

/-- Embeds one iteration of the File.reader loop: append the dequeued block
to the active segment, add its newline count to lines and its length to
size, then, when lines has reached linesLimit, flush and reset. -/
def step (s : State) (b : Block) : State :=
  let s1 : State :=
    { s with
      tmp := s.tmp.map (fun c => c ++ b),
      lines := s.lines + countNewlines b,
      size := s.size + b.length }
  if s1.linesLimit ≤ s1.lines then reset (flush s1) else s1

/-- Embeds one reader iteration with an explicit outcome for the underlying
tmp or gz write: the code discards the error value of that write, so the
state carries no error channel and the counters advance by the full block
even when the write fails (ok = false leaves the file content untouched). -/
def stepOutcome (ok : Bool) (s : State) (b : Block) : State :=
  let s1 : State :=
    { s with
      tmp := if ok then s.tmp.map (fun c => c ++ b) else s.tmp,
      lines := s.lines + countNewlines b,
      size := s.size + b.length }
  if s1.linesLimit ≤ s1.lines then reset (flush s1) else s1

/-- Embeds the configuration handling of New: a zero or unset linesLimit
falls back to defaultLimitLines; no temp file is open yet. -/
def new (linesLimitCfg : Nat) : State :=
  { tmp := none, lines := 0, size := 0,
    linesLimit := if linesLimitCfg = 0 then defaultLimitLines else linesLimitCfg,
    handoffs := [] }

/-- Embeds the reader goroutine over a drained queue: it first calls reset,
then processes every accepted block in enqueue order. -/
def readerRun (s : State) (blocks : List Block) : State :=
  List.foldl step (reset s) blocks

/-- Embeds Exit for a File created with the given linesLimit whose queue
accepted exactly the given blocks: Exit closes bufCh, waits on done, which
the reader signals only after draining the queue, and then flushes once. -/
def exitRun (linesLimitCfg : Nat) (blocks : List Block) : State :=
  flush (readerRun (new linesLimitCfg) blocks)

/-- The aggregator inbound channel bufCh, capacity defaultBufSize. -/
structure BufCh where
  queue : List Block
deriving DecidableEq, Repr

/-- A channel send can complete exactly when a buffer slot is free; with
the reader making no progress there is no waiting receiver. -/
def sendEnabled (ch : BufCh) : Bool :=
  ch.queue.length < defaultBufSize

/-- Completion of a channel send: the block joins the back of the queue. -/
def send (ch : BufCh) (b : Block) : BufCh :=
  { queue := ch.queue ++ [b] }

/-- A receive by the reader goroutine: takes the front block, frees a slot. -/
def recv (ch : BufCh) : Option (Block × BufCh) :=
  match ch.queue with
  | [] => none
  | b :: rest => some (b, { queue := rest })

/-- Runs a sequence of Write enqueues while every send finds a free slot;
none marks the point where a sender would suspend. -/
def enqueueAll (ch : BufCh) : List Block → Option BufCh
  | [] => some ch
  | b :: bs => if sendEnabled ch then enqueueAll (send ch b) bs else none

/-- Embeds File.Write once its channel send has completed: the block was
copied into a pooled buffer and enqueued, and the call returns the pair
len(b) and nil unconditionally; nothing computed by the reader goroutine
flows into this return value. -/
def WriteQueued (ch : BufCh) (b : Block) : BufCh × Nat × Option String :=
  (send ch b, b.length, none)

/-- Lifecycle view of a File for Exit: only the inbound channel state. -/
structure LifeState where
  bufCh : GoChan
deriving DecidableEq, Repr

/-- A freshly constructed File: bufCh open. -/
def newLife : LifeState :=
  { bufCh := { closed := false } }

/-- Embeds the channel effect of File.Exit: it closes bufCh first; on a
second call this close panics.  The subsequent drain and flush are not
reached when the close faults. -/
def ExitLife (s : LifeState) : Except String LifeState :=
  (goClose s.bufCh).map (fun c => { bufCh := c })

end file

namespace awsS3

/-- maxRetry of the sink upload loop. -/
def maxRetry : Nat := 10

/-- fileChSize, the capacity of the sink file queue. -/
def fileChSize : Nat := 1000

/-- The error code string AccessDenied. -/
def errAccessDenied : String := "AccessDenied"

/-- The error code string SignatureDoesNotMatch. -/
def errSignatureDoesNotMatch : String := "SignatureDoesNotMatch"

/-- Embeds the switch on err.Error() in sendFile: the two authorization
class codes abort the retry loop. -/
def isFatal (e : String) : Bool :=
  e == errAccessDenied || e == errSignatureDoesNotMatch

/-- Result of processing one file in the upload worker. -/
inductive SendOutcome where
  | success : SendOutcome
  | fatalErr : String → SendOutcome
  | maxRetryErr : SendOutcome
deriving DecidableEq, Repr

/-- Embeds the retry loop of AwsS3.sendFile.  The oracle gives the outcome
of each putObject call by attempt index, none meaning success.  attempts
counts the calls already made; fuel is maxRetry minus attempts, which the
loop keeps strictly positive, so the zero case is unreachable on every
call the code performs.  Returns the outcome and the number of putObject
calls made. -/
def sendFileLoop (oracle : Nat → Option String) : Nat → Nat → SendOutcome × Nat
  | attempts, 0 => (SendOutcome.maxRetryErr, attempts)
  | attempts, f + 1 =>
    match oracle attempts with
    | none => (SendOutcome.success, attempts + 1)
    | some e =>
      if isFatal e then (SendOutcome.fatalErr e, attempts + 1)
      else if maxRetry ≤ attempts + 1 then (SendOutcome.maxRetryErr, attempts + 1)
      else sendFileLoop oracle (attempts + 1) f

/-- The os.Remove call sits after the loop and is reached only when the
loop breaks on success; every error return skips it. -/
def deletedOf : SendOutcome → Bool
  | SendOutcome.success => true
  | SendOutcome.fatalErr _ => false
  | SendOutcome.maxRetryErr => false

/-- Embeds AwsS3.sendFile for one file: run the retry loop from zero
attempts, then delete the local file exactly on the success path.  Returns
outcome, number of putObject attempts, and whether the file was deleted. -/
def sendFile (oracle : Nat → Option String) : SendOutcome × Nat × Bool :=
  let r := sendFileLoop oracle 0 maxRetry
  (r.1, r.2, deletedOf r.1)

/-- Embeds the file branch of listen: the worker drains the queue in order,
calling sendFile on each file and discarding its error. -/
def uploadWorker (files : List (Nat → Option String)) : List (SendOutcome × Nat × Bool) :=
  files.map sendFile

/-- Embeds AwsS3.SendFile: a select with a default branch, so the call
never suspends; the file (tracked by its name) is enqueued when the
bounded queue has room and otherwise the call fails at once. -/
def SendFile (q : List String) (f : String) : List String × Option String :=
  if q.length < fileChSize then (q ++ [f], none)
  else (q, some "Files channel full")

/-- Lifecycle view of an AwsS3 sink for Exit: both submission channels. -/
structure LifeState where
  fileCh : GoChan
  bytesCh : GoChan
deriving DecidableEq, Repr

/-- A freshly constructed sink: both channels open (New always allocates
them, so the nil guards in Exit always pass). -/
def newLife : LifeState :=
  { fileCh := { closed := false }, bytesCh := { closed := false } }

/-- Embeds the channel effects of AwsS3.Exit: close fileCh, then close
bytesCh; a second call panics on the first close. -/
def ExitLife (s : LifeState) : Except String LifeState :=
  match goClose s.fileCh with
  | Except.error e => Except.error e
  | Except.ok f2 =>
    match goClose s.bytesCh with
    | Except.error e => Except.error e
    | Except.ok b2 => Except.ok { fileCh := f2, bytesCh := b2 }

end awsS3

/-
Helper lemmas about the aggregator writer loop.
-/

namespace file

/-- Closed form of one reader iteration when a temp file is open: either the
threshold is reached, yielding one handoff of the grown segment and a fresh
zeroed segment, or the segment and counters just grow. -/
lemma step_eq (s : State) (c : List Byte) (h : s.tmp = some c) (b : Block) :
    step s b =
      if s.linesLimit ≤ s.lines + countNewlines b then
        { s with tmp := some [], lines := 0, size := 0,
                 handoffs := s.handoffs ++ [c ++ b] }
      else
        { s with tmp := some (c ++ b), lines := s.lines + countNewlines b,
                 size := s.size + b.length } := by
  simp only [step, flush, reset, h, Option.map_some']

/-- One reader iteration keeps a temp file open and moves the full block
into the combined content: handoffs content followed by segment content
grows exactly by the block. -/
lemma step_tmp_join (s : State) (c : List Byte) (h : s.tmp = some c) (b : Block) :
    ∃ c2, (step s b).tmp = some c2 ∧
      (step s b).handoffs.flatten ++ c2 = s.handoffs.flatten ++ (c ++ b) := by
  rw [step_eq s c h b]
  by_cases hc : s.linesLimit ≤ s.lines + countNewlines b
  · rw [if_pos hc]
    refine ⟨[], rfl, ?_⟩
    simp
  · rw [if_neg hc]
    refine ⟨c ++ b, rfl, ?_⟩
    simp

/-- Draining any block list preserves an open temp file and appends exactly
the drained bytes to the combined content. -/
lemma foldl_step_join (blocks : List Block) :
    ∀ (s : State) (c : List Byte), s.tmp = some c →
      ∃ c2, (List.foldl step s blocks).tmp = some c2 ∧
        (List.foldl step s blocks).handoffs.flatten ++ c2 =
          s.handoffs.flatten ++ c ++ blocks.flatten := by
  induction blocks with
  | nil =>
    intro s c h
    exact ⟨c, h, by simp⟩
  | cons b rest ih =>
    intro s c h
    obtain ⟨c1, h1, hj1⟩ := step_tmp_join s c h b
    obtain ⟨c2, h2, hj2⟩ := ih (step s b) c1 h1
    refine ⟨c2, h2, ?_⟩
    simp only [List.foldl_cons] at *
    rw [hj2, hj1]
    simp [List.append_assoc]

/-- A block is held by a state when its bytes sit contiguously inside the
open segment or inside one of the files already handed to the sink. -/
def holdsBlock (s : State) (b : Block) : Prop :=
  (∃ c u v, s.tmp = some c ∧ c = u ++ b ++ v) ∨
  (∃ f, f ∈ s.handoffs ∧ ∃ u v, f = u ++ b ++ v)

/-- One reader iteration preserves holdsBlock: the open segment only grows,
and on rotation it moves wholesale into the handoff list. -/
lemma holdsBlock_step (s : State) (c : List Byte) (h : s.tmp = some c)
    (x b : Block) (hb : holdsBlock s b) : holdsBlock (step s x) b := by
  rw [step_eq s c h x]
  rcases hb with ⟨c0, u, v, hc0, he⟩ | ⟨f, hf, u, v, he⟩
  · rw [h] at hc0
    have hcc : c = c0 := Option.some_inj.mp hc0
    subst hcc
    have hgrow : c ++ x = u ++ b ++ (v ++ x) := by
      rw [he]; simp [List.append_assoc]
    split
    · right
      exact ⟨c ++ x, by simp, u, v ++ x, hgrow⟩
    · left
      exact ⟨c ++ x, u, v ++ x, rfl, hgrow⟩
  · split
    · right
      exact ⟨f, by simp [hf], u, v, he⟩
    · right
      exact ⟨f, hf, u, v, he⟩

/-- The block just processed is held by the resulting state. -/
lemma holdsBlock_self (s : State) (c : List Byte) (h : s.tmp = some c) (b : Block) :
    holdsBlock (step s b) b := by
  rw [step_eq s c h b]
  split
  · right
    exact ⟨c ++ b, by simp, c, [], by simp⟩
  · left
    exact ⟨c ++ b, c, [], rfl, by simp⟩

/-- One reader iteration keeps some temp file open. -/
lemma step_tmp_isSome (s : State) (c : List Byte) (h : s.tmp = some c) (b : Block) :
    ∃ c1, (step s b).tmp = some c1 := by
  obtain ⟨c1, h1, _⟩ := step_tmp_join s c h b
  exact ⟨c1, h1⟩

/-- Draining preserves holdsBlock. -/
lemma foldl_holdsBlock_preserve (blocks : List Block) :
    ∀ (s : State) (c : List Byte), s.tmp = some c → ∀ b, holdsBlock s b →
      holdsBlock (List.foldl step s blocks) b := by
  induction blocks with
  | nil => intro s c h b hb; simpa using hb
  | cons x rest ih =>
    intro s c h b hb
    obtain ⟨c1, h1⟩ := step_tmp_isSome s c h x
    simpa using ih (step s x) c1 h1 b (holdsBlock_step s c h x b hb)

/-- After draining, every drained block is held by the final state. -/
lemma foldl_holdsBlock_all (blocks : List Block) :
    ∀ (s : State) (c : List Byte), s.tmp = some c → ∀ b ∈ blocks,
      holdsBlock (List.foldl step s blocks) b := by
  induction blocks with
  | nil => intro s c h b hb; cases hb
  | cons x rest ih =>
    intro s c h b hb
    obtain ⟨c1, h1⟩ := step_tmp_isSome s c h x
    rcases List.mem_cons.mp hb with rfl | hb2
    · simpa using foldl_holdsBlock_preserve rest (step s b) c1 h1 b
        (holdsBlock_self s c h b)
    · simpa using ih (step s x) c1 h1 b hb2

/-- The final flush of Exit turns a held block into membership in a handed
off file: the open segment content joins the handoff list. -/
lemma flush_holdsBlock (s : State) (c : List Byte) (h : s.tmp = some c)
    (b : Block) (hb : holdsBlock s b) :
    ∃ f, f ∈ (flush s).handoffs ∧ ∃ u v, f = u ++ b ++ v := by
  simp only [flush, h]
  rcases hb with ⟨c0, u, v, hc0, he⟩ | ⟨f, hf, u, v, he⟩
  · rw [h] at hc0
    have hcc : c = c0 := Option.some_inj.mp hc0
    subst hcc
    exact ⟨c, by simp, u, v, he⟩
  · exact ⟨f, by simp [hf], u, v, he⟩

end file

/-
Helper lemmas about the inbound channel and the writer bookkeeping.
-/

namespace file

/-- As long as the queue plus the pending blocks fit the capacity, every
send completes and the blocks line up behind the existing ones. -/
lemma enqueueAll_of_le (bs : List Block) :
    ∀ ch : BufCh, ch.queue.length + bs.length ≤ defaultBufSize →
      enqueueAll ch bs = some { queue := ch.queue ++ bs } := by
  induction bs with
  | nil =>
    intro ch h
    simp [enqueueAll]
  | cons b rest ih =>
    intro ch h
    simp only [List.length_cons] at h
    have he : sendEnabled ch = true := by
      simp only [sendEnabled, decide_eq_true_eq]
      omega
    have hlen : (send ch b).queue.length + rest.length ≤ defaultBufSize := by
      simp only [send, List.length_append, List.length_cons, List.length_nil]
      omega
    have hrec := ih (send ch b) hlen
    rw [show enqueueAll ch (b :: rest) =
          if sendEnabled ch then enqueueAll (send ch b) rest else none from rfl,
        he, if_pos rfl, hrec]
    simp [send, List.append_assoc]

/-- The line counter after one iteration, independent of the write outcome:
zero after a rotation, otherwise grown by the newline count of the block. -/
lemma stepOutcome_lines (ok : Bool) (s : State) (b : Block) :
    (stepOutcome ok s b).lines =
      if s.linesLimit ≤ s.lines + countNewlines b then 0
      else s.lines + countNewlines b := by
  simp only [stepOutcome]
  split
  · simp [reset]
  · rfl

/-- The byte counter after one iteration, independent of the write outcome. -/
lemma stepOutcome_size (ok : Bool) (s : State) (b : Block) :
    (stepOutcome ok s b).size =
      if s.linesLimit ≤ s.lines + countNewlines b then 0
      else s.size + b.length := by
  simp only [stepOutcome]
  split
  · simp [reset]
  · rfl

end file

/-
Helper lemmas about the sink retry loop.
-/

namespace awsS3

/-- When every attempt fails with a retryable error, the loop runs its fuel
down and stops with the maximum retry error after exactly maxRetry calls. -/
lemma sendFileLoop_allfail (oracle : Nat → Option String)
    (h : ∀ i, ∃ e, oracle i = some e ∧ isFatal e = false) :
    ∀ fuel attempts, attempts + fuel = maxRetry → 0 < fuel →
      sendFileLoop oracle attempts fuel = (SendOutcome.maxRetryErr, maxRetry) := by
  intro fuel
  induction fuel with
  | zero =>
    intro attempts _ hpos
    omega
  | succ f ih =>
    intro attempts hsum _
    obtain ⟨e, he, hf⟩ := h attempts
    simp only [sendFileLoop, he, hf, Bool.false_eq_true, if_false]
    by_cases hm : maxRetry ≤ attempts + 1
    · have hone : attempts + 1 = maxRetry := by omega
      rw [if_pos hm, hone]
    · rw [if_neg hm]
      exact ih (attempts + 1) (by omega) (by omega)

/-- A fatal first attempt stops the loop at once with one call made. -/
lemma sendFileLoop_fatal_first (oracle : Nat → Option String) (e : String)
    (f : Nat) (h0 : oracle 0 = some e) (hf : isFatal e = true) :
    sendFileLoop oracle 0 (f + 1) = (SendOutcome.fatalErr e, 1) := by
  simp [sendFileLoop, h0, hf]

/-- The loop reports success exactly when one of the calls it made came
back without an error. -/
lemma sendFileLoop_success_iff (oracle : Nat → Option String) :
    ∀ fuel attempts,
      ((sendFileLoop oracle attempts fuel).1 = SendOutcome.success ↔
        ∃ i, attempts ≤ i ∧ i < (sendFileLoop oracle attempts fuel).2 ∧
          oracle i = none) := by
  intro fuel
  induction fuel with
  | zero =>
    intro attempts
    constructor
    · intro hcon
      exact absurd hcon (by simp [sendFileLoop])
    · rintro ⟨i, h1, h2, _⟩
      simp only [sendFileLoop] at h2
      omega
  | succ f ih =>
    intro attempts
    cases hor : oracle attempts with
    | none =>
      simp only [sendFileLoop, hor]
      constructor
      · intro _
        exact ⟨attempts, le_refl _, by omega, hor⟩
      · intro _
        trivial
    | some e =>
      by_cases hf : isFatal e
      · simp only [sendFileLoop, hor, hf, if_true]
        constructor
        · intro hcon
          cases hcon
        · rintro ⟨i, h1, h2, hnone⟩
          have hi : i = attempts := by omega
          rw [hi, hor] at hnone
          cases hnone
      · by_cases hm : maxRetry ≤ attempts + 1
        · simp only [sendFileLoop, hor, hf, Bool.false_eq_true, if_false, if_pos hm]
          constructor
          · intro hcon
            cases hcon
          · rintro ⟨i, h1, h2, hnone⟩
            have hi : i = attempts := by omega
            rw [hi, hor] at hnone
            cases hnone
        · have hrec : sendFileLoop oracle attempts (f + 1) =
              sendFileLoop oracle (attempts + 1) f := by
            simp only [sendFileLoop, hor, hf, Bool.false_eq_true, if_false, if_neg hm]
          rw [hrec, ih (attempts + 1)]
          constructor
          · rintro ⟨i, h1, h2, hn⟩
            exact ⟨i, by omega, h2, hn⟩
          · rintro ⟨i, h1, h2, hn⟩
            by_cases hi : i = attempts
            · rw [hi, hor] at hn
              cases hn
            · exact ⟨i, by omega, h2, hn⟩

/-- The deletion flag singles out the success outcome. -/
lemma deletedOf_true_iff (o : SendOutcome) :
    deletedOf o = true ↔ o = SendOutcome.success := by
  cases o <;> simp [deletedOf]

end awsS3

namespace file

/-- Flush with an open temp file hands exactly that file to the sink. -/
lemma flush_handoffs_some (s : State) (c : List Byte) (h : s.tmp = some c) :
    (flush s).handoffs = s.handoffs ++ [c] := by
  simp only [flush, h]

/-- Flush without an open temp file does nothing. -/
lemma flush_none (s : State) (h : s.tmp = none) : flush s = s := by
  simp only [flush, h]

end file

/-
The claims.
-/

/-- C1: no data loss on graceful shutdown of the rotating aggregator.  For
every configured lines limit and every block sequence accepted before Exit,
once Exit has closed the queue, waited for the reader to drain it and done
the final flush (exitRun), the concatenation of all files handed to the
bound sink via SendFile equals the concatenation of the accepted blocks,
and each accepted block sits contiguously inside one handed-off file. -/
theorem c1_graceful_exit_no_data_loss (linesLimitCfg : Nat) (blocks : List Block) :
    (file.exitRun linesLimitCfg blocks).handoffs.flatten = blocks.flatten ∧
    ∀ b ∈ blocks, ∃ f, f ∈ (file.exitRun linesLimitCfg blocks).handoffs ∧
      ∃ u v, f = u ++ b ++ v := by
  have h0 : (file.reset (file.new linesLimitCfg)).tmp = some [] := rfl
  obtain ⟨c2, h2, hj⟩ :=
    file.foldl_step_join blocks (file.reset (file.new linesLimitCfg)) [] h0
  have hjoin :
      (List.foldl file.step (file.reset (file.new linesLimitCfg)) blocks).handoffs.flatten
        ++ c2 = blocks.flatten := by
    simpa [file.reset, file.new] using hj
  constructor
  · show (file.flush (List.foldl file.step (file.reset (file.new linesLimitCfg))
      blocks)).handoffs.flatten = blocks.flatten
    rw [file.flush_handoffs_some _ c2 h2]
    simpa using hjoin
  · intro b hb
    exact file.flush_holdsBlock _ c2 h2 b
      (file.foldl_holdsBlock_all blocks _ [] h0 b hb)

/-- C1 witness: a single accepted block survives Exit inside a handed file. -/
theorem c1_witness :
    (file.exitRun 3 [[97, 10]]).handoffs.flatten = [97, 10] ∧
    ∀ b ∈ [[97, 10]], ∃ f, f ∈ (file.exitRun 3 [[97, 10]]).handoffs ∧
      ∃ u v, f = u ++ b ++ v :=
  c1_graceful_exit_no_data_loss 3 [[97, 10]]

/-- C2: when the cumulative newline count of the active segment reaches the
configured limit, the writer performs exactly one handoff, namely the grown
segment, and immediately afterwards a fresh segment is open and both the
line counter and the byte counter are zero; below the limit there is no
handoff and both counters accumulate. -/
theorem c2_rotation_per_crossing (s : file.State) (c : List Byte) (b : Block)
    (h : s.tmp = some c) :
    (s.linesLimit ≤ s.lines + countNewlines b →
      (file.step s b).handoffs = s.handoffs ++ [c ++ b] ∧
      (file.step s b).lines = 0 ∧
      (file.step s b).size = 0 ∧
      (file.step s b).tmp = some []) ∧
    (s.lines + countNewlines b < s.linesLimit →
      (file.step s b).handoffs = s.handoffs ∧
      (file.step s b).lines = s.lines + countNewlines b ∧
      (file.step s b).size = s.size + b.length ∧
      (file.step s b).tmp = some (c ++ b)) := by
  rw [file.step_eq s c h b]
  constructor
  · intro hcross
    rw [if_pos hcross]
    exact ⟨rfl, rfl, rfl, rfl⟩
  · intro hlt
    rw [if_neg (by omega)]
    exact ⟨rfl, rfl, rfl, rfl⟩

/-- C2 witness: one newline block crossing a limit of one rotates once and
zeroes both counters. -/
theorem c2_witness :
    (file.step { tmp := some [], lines := 0, size := 0, linesLimit := 1, handoffs := [] } [10]).handoffs = [[10]] ∧
    (file.step { tmp := some [], lines := 0, size := 0, linesLimit := 1, handoffs := [] } [10]).lines = 0 ∧
    (file.step { tmp := some [], lines := 0, size := 0, linesLimit := 1, handoffs := [] } [10]).size = 0 ∧
    (file.step { tmp := some [], lines := 0, size := 0, linesLimit := 1, handoffs := [] } [10]).tmp = some [] :=
  (c2_rotation_per_crossing
    { tmp := some [], lines := 0, size := 0, linesLimit := 1, handoffs := [] }
    [] [10] rfl).1 (by decide)

/-- C3: against a sink whose every attempt fails with a retryable error,
the upload worker makes exactly maxRetry putObject attempts, abandons the
file with the permanent failure outcome without deleting it, and goes on
to process the rest of the queue. -/
theorem c3_retry_bound (oracle : Nat → Option String)
    (h : ∀ i, ∃ e, oracle i = some e ∧ awsS3.isFatal e = false) :
    awsS3.sendFile oracle =
      (awsS3.SendOutcome.maxRetryErr, awsS3.maxRetry, false) ∧
    ∀ rest, awsS3.uploadWorker (oracle :: rest) =
      awsS3.sendFile oracle :: awsS3.uploadWorker rest := by
  have hl := awsS3.sendFileLoop_allfail oracle h awsS3.maxRetry 0 (by omega) (by decide)
  constructor
  · simp [awsS3.sendFile, hl, awsS3.deletedOf]
  · intro rest
    simp [awsS3.uploadWorker]

/-- C3 witness: a concrete always-retryable failure is retried exactly
maxRetry times and the worker continues. -/
theorem c3_witness :
    awsS3.sendFile (fun _ => some "boom") =
      (awsS3.SendOutcome.maxRetryErr, awsS3.maxRetry, false) ∧
    ∀ rest, awsS3.uploadWorker ((fun _ => some "boom") :: rest) =
      awsS3.sendFile (fun _ => some "boom") :: awsS3.uploadWorker rest :=
  c3_retry_bound (fun _ => some "boom") (fun _ => ⟨"boom", rfl, by decide⟩)

/-- C4: an authorization or signature class failure on the first attempt
makes the sink return at once: exactly one putObject call, no retries, and
the local file is not deleted. -/
theorem c4_fatal_short_circuit (oracle : Nat → Option String) (e : String)
    (h0 : oracle 0 = some e) (hf : awsS3.isFatal e = true) :
    awsS3.sendFile oracle = (awsS3.SendOutcome.fatalErr e, 1, false) := by
  have h1 : awsS3.sendFileLoop oracle 0 awsS3.maxRetry =
      (awsS3.SendOutcome.fatalErr e, 1) :=
    awsS3.sendFileLoop_fatal_first oracle e 9 h0 hf
  simp [awsS3.sendFile, h1, awsS3.deletedOf]

/-- C4 witness: an AccessDenied first attempt yields one attempt and no
deletion. -/
theorem c4_witness :
    awsS3.sendFile (fun _ => some awsS3.errAccessDenied) =
      (awsS3.SendOutcome.fatalErr awsS3.errAccessDenied, 1, false) :=
  c4_fatal_short_circuit (fun _ => some awsS3.errAccessDenied)
    awsS3.errAccessDenied rfl (by decide)

/-- C5: SendFile on the sink never suspends: with a free slot in the
bounded file queue the file is enqueued and nil is returned, and with a
full queue a queue-full error is returned immediately with the queue
unchanged. -/
theorem c5_sendfile_nonblocking (q : List String) (f : String) :
    (q.length < awsS3.fileChSize →
      awsS3.SendFile q f = (q ++ [f], none)) ∧
    (awsS3.fileChSize ≤ q.length →
      awsS3.SendFile q f = (q, some "Files channel full")) := by
  constructor
  · intro h
    simp [awsS3.SendFile, h]
  · intro h
    simp [awsS3.SendFile, Nat.not_lt.mpr h]

/-- C5 witness: an empty queue accepts, a full queue fails fast. -/
theorem c5_witness :
    awsS3.SendFile [] "a" = (["a"], none) ∧
    awsS3.SendFile (List.replicate awsS3.fileChSize "x") "a" =
      (List.replicate awsS3.fileChSize "x", some "Files channel full") :=
  ⟨(c5_sendfile_nonblocking [] "a").1 (by decide),
   (c5_sendfile_nonblocking (List.replicate awsS3.fileChSize "x") "a").2 (by simp)⟩

/-- C6: the upload worker deletes the local file exactly when one of the
putObject attempts it made succeeded; on every failure outcome the file is
left on disk. -/
theorem c6_delete_iff_upload_success (oracle : Nat → Option String) :
    ((awsS3.sendFile oracle).2.2 = true ↔
      ∃ i, i < (awsS3.sendFile oracle).2.1 ∧ oracle i = none) ∧
    ((awsS3.sendFile oracle).1 ≠ awsS3.SendOutcome.success →
      (awsS3.sendFile oracle).2.2 = false) := by
  have hs := awsS3.sendFileLoop_success_iff oracle awsS3.maxRetry 0
  constructor
  · simp only [awsS3.sendFile]
    rw [awsS3.deletedOf_true_iff, hs]
    constructor
    · rintro ⟨i, _, h2, h3⟩
      exact ⟨i, h2, h3⟩
    · rintro ⟨i, h2, h3⟩
      exact ⟨i, Nat.zero_le i, h2, h3⟩
  · intro hne
    simp only [awsS3.sendFile] at hne ⊢
    cases ho : (awsS3.sendFileLoop oracle 0 awsS3.maxRetry).1 with
    | success => exact absurd ho hne
    | fatalErr e => simp [awsS3.deletedOf, ho]
    | maxRetryErr => simp [awsS3.deletedOf, ho]

/-- C6 witness: a first-attempt success deletes, and the equivalence holds
at that input. -/
theorem c6_witness :
    ((awsS3.sendFile (fun _ => none)).2.2 = true ↔
      ∃ i, i < (awsS3.sendFile (fun _ => none)).2.1 ∧
        (fun _ => (none : Option String)) i = none) ∧
    ((awsS3.sendFile (fun _ => none)).1 ≠ awsS3.SendOutcome.success →
      (awsS3.sendFile (fun _ => none)).2.2 = false) :=
  c6_delete_iff_upload_success (fun _ => none)

/-- C7: backpressure on the aggregator inbound queue.  With capacity
defaultBufSize and the reader making no progress, a sequence of exactly
defaultBufSize writes all complete by enqueueing; the next send is not
enabled, so that write suspends; after the reader receives one block the
send is enabled again; and a completed Write returns the block length and
nil, never dropping the block and never returning a queue-full error. -/
theorem c7_backpressure (bs : List Block) (h : bs.length = defaultBufSize) :
    file.enqueueAll { queue := [] } bs = some { queue := bs } ∧
    file.sendEnabled { queue := bs } = false ∧
    (∀ x, file.recv { queue := bs } = some x → file.sendEnabled x.2 = true) ∧
    (∀ (ch : file.BufCh) (b : Block),
      file.WriteQueued ch b = (file.send ch b, b.length, none)) := by
  refine ⟨?_, ?_, ?_, fun ch b => rfl⟩
  · have := file.enqueueAll_of_le bs { queue := [] } (by simp [h])
    simpa using this
  · simp [file.sendEnabled, h]
  · intro x hx
    cases hbs : bs with
    | nil =>
      rw [hbs] at h
      simp [defaultBufSize] at h
    | cons b rest =>
      rw [hbs] at hx
      simp only [file.recv] at hx
      have hx2 := Option.some_inj.mp hx
      rw [← hx2]
      rw [hbs] at h
      simp only [List.length_cons] at h
      simp only [file.sendEnabled, decide_eq_true_eq, defaultBufSize] at h ⊢
      omega

/-- C7 witness: at the concrete capacity the full-queue scenario behaves as
stated. -/
theorem c7_witness :
    file.enqueueAll { queue := [] } (List.replicate defaultBufSize ([] : Block)) =
      some { queue := List.replicate defaultBufSize [] } ∧
    file.sendEnabled { queue := List.replicate defaultBufSize ([] : Block) } = false ∧
    (∀ x, file.recv { queue := List.replicate defaultBufSize ([] : Block) } = some x →
      file.sendEnabled x.2 = true) ∧
    (∀ (ch : file.BufCh) (b : Block),
      file.WriteQueued ch b = (file.send ch b, b.length, none)) :=
  c7_backpressure (List.replicate defaultBufSize []) (by simp)

/-- C8 counterexample: with no input the active segment has received zero
bytes when Exit is called, yet Exit still hands a file to the sink: the
final state records one SendFile call carrying the empty segment, so the
claimed absence of a handoff is false on the code. -/
theorem c8_counterexample :
    (file.exitRun 3 []).size = 0 ∧
    (file.exitRun 3 []).handoffs = [[]] :=
  ⟨rfl, rfl⟩

/-- C8 as amended: at Exit the aggregator hands the active segment to the
sink whenever a temp file is open, even when the segment holds zero bytes;
only a missing temp file suppresses the handoff. -/
theorem c8_amended_empty_segment_still_handed_off (s : file.State)
    (c : List Byte) (h : s.tmp = some c) :
    (file.flush s).handoffs = s.handoffs ++ [c] ∧
    ∀ s2 : file.State, s2.tmp = none → file.flush s2 = s2 := by
  refine ⟨file.flush_handoffs_some s c h, ?_⟩
  intro s2 h2
  exact file.flush_none s2 h2

/-- C8 witness: a zero-byte open segment is handed off by flush. -/
theorem c8_witness :
    (file.flush { tmp := some [], lines := 0, size := 0, linesLimit := 3, handoffs := [] }).handoffs = [[]] ∧
    ∀ s2 : file.State, s2.tmp = none → file.flush s2 = s2 :=
  c8_amended_empty_segment_still_handed_off
    { tmp := some [], lines := 0, size := 0, linesLimit := 3, handoffs := [] }
    [] rfl

/-- C9 counterexample: calling Exit twice on a fresh aggregator is not
safe: the second call panics by closing the already closed inbound
channel, refuting the claimed idempotence. -/
theorem c9_counterexample :
    Except.bind (file.ExitLife file.newLife) file.ExitLife =
      Except.error "close of closed channel" :=
  rfl

/-- C9 as amended: a second Exit is never safe on the aggregator or the
sink: after any successful first Exit, calling Exit again panics by
closing an already closed channel. -/
theorem c9_amended_second_exit_panics
    (sf sf2 : file.LifeState) (sa sa2 : awsS3.LifeState)
    (hf : file.ExitLife sf = Except.ok sf2)
    (ha : awsS3.ExitLife sa = Except.ok sa2) :
    file.ExitLife sf2 = Except.error "close of closed channel" ∧
    awsS3.ExitLife sa2 = Except.error "close of closed channel" := by
  obtain ⟨⟨bf⟩⟩ := sf
  obtain ⟨⟨cf⟩, ⟨cb⟩⟩ := sa
  cases bf
  · cases cf
    · cases cb
      · have h3 : ({ bufCh := { closed := true } } : file.LifeState) = sf2 :=
          Except.ok.inj hf
        have h4 : ({ fileCh := { closed := true }, bytesCh := { closed := true } } : awsS3.LifeState) = sa2 :=
          Except.ok.inj ha
        rw [← h3, ← h4]
        exact ⟨rfl, rfl⟩
      · simp [awsS3.ExitLife, goClose] at ha
    · simp [awsS3.ExitLife, goClose] at ha
  · simp [file.ExitLife, goClose, Except.map] at hf

/-- C9 witness: the concrete post-Exit states fault on the second call. -/
theorem c9_witness :
    file.ExitLife { bufCh := { closed := true } } =
      Except.error "close of closed channel" ∧
    awsS3.ExitLife { fileCh := { closed := true }, bytesCh := { closed := true } } =
      Except.error "close of closed channel" :=
  c9_amended_second_exit_panics file.newLife { bufCh := { closed := true } }
    awsS3.newLife
    { fileCh := { closed := true }, bytesCh := { closed := true } }
    rfl rfl

/-- C10: in the queue-based aggregator, Write returns the pair of the block
length and nil whenever its enqueue completes, and the background writer
swallows I/O failures: its loop state carries no error and the line and
byte counters advance identically whether or not the underlying file write
succeeded, so no I/O error can reach a Write caller. -/
theorem c10_write_never_surfaces_io_errors (ch : file.BufCh) (b : Block) :
    file.WriteQueued ch b = (file.send ch b, b.length, none) ∧
    ∀ (ok : Bool) (s : file.State),
      (file.stepOutcome ok s b).lines = (file.stepOutcome true s b).lines ∧
      (file.stepOutcome ok s b).size = (file.stepOutcome true s b).size := by
  refine ⟨rfl, ?_⟩
  intro ok s
  constructor
  · simp [file.stepOutcome_lines]
  · simp [file.stepOutcome_size]

end Loup
